import Mathlib

/-!
Shallow embedding of the core preprocessing pipeline of `src/preprocess.py`
(US gun-incident aggregation into time windows and spatial cells), together
with proofs settling the specification claims about it.

Modelling conventions:
* Python floats are modelled as exact rationals (`ℚ`); Python ints as `ℤ`.
* Python's `int(x)` conversion truncates toward zero; it is modelled by
  `pyInt` below.
* Python's `f"{x:.1f}"` / `round(x, 6)` render/round to a fixed number of
  decimal places with ties going to the even digit; they are modelled by
  `fmt1` / `round6` via `roundHalfEven`.  A grid-cell identifier
  `f"{binLat:.1f}_{binLon:.1f}"` is modelled as the pair of the two
  one-decimal rendered values: the underscore-joined string is in bijection
  with that pair (neither component contains an underscore), so nothing is
  lost by working with the pair.
* `pandas` rows are modelled as lists; `groupby` as grouping a list by the
  distinct values of a key function (order is irrelevant to every claim).
* A missing value (`NaN` / `NaT`) is modelled by `Option.none`.
-/

/-- Python's `int(x)` conversion: truncation toward zero. -/
def pyInt (q : ℚ) : ℤ := if 0 ≤ q then ⌊q⌋ else ⌈q⌉

/-- Round a rational to the nearest integer, ties to the even integer.
This models the rounding used when Python renders a float with a fixed
number of decimal places. -/
def roundHalfEven (q : ℚ) : ℤ :=
  if Int.fract q = 1/2 then (if 2 ∣ ⌊q⌋ then ⌊q⌋ else ⌊q⌋ + 1) else round q

/-- Rendering a value to one decimal place (`f"{x:.1f}"`), modelled as the
rational value the rendered string denotes. -/
def fmt1 (q : ℚ) : ℚ := (roundHalfEven (q * 10) : ℚ) / 10

/-- Python's `round(x, 6)` (six decimal places). -/
def round6 (q : ℚ) : ℚ := (roundHalfEven (q * 1000000) : ℚ) / 1000000

/-- Arithmetic mean of a list of rationals (`pandas` `mean`). -/
def listMean (l : List ℚ) : ℚ := l.sum / l.length

/-- A time window `{"start": ..., "end": ...}` from `create_time_windows`.
The Python dict key `end` is a reserved word in Lean, hence `endYear`. -/
structure Window where
  start : ℤ
  endYear : ℤ
deriving DecidableEq, Repr

/-- Loop body of `create_time_windows` (`src/preprocess.py`, lines 87-97):

    while current_start <= max_year:
        current_end = min(current_start + years_per_window - 1, max_year)
        windows.append({"start": current_start, "end": current_end})
        current_start = current_end + 1

The `fuel` argument bounds the number of iterations; exhausting it returns
`none`, which models the Python loop failing to terminate (as happens for
`years_per_window <= 0`).  For `1 ≤ years_per_window` the fuel supplied by
`create_time_windows` is proved sufficient (`ctwAux` never returns `none`
there). -/
def ctwAux : ℕ → ℤ → ℤ → ℤ → Option (List Window)
  | 0, cur, maxY, _ => if cur ≤ maxY then none else some []
  | fuel + 1, cur, maxY, ypw =>
    if cur ≤ maxY then
      (ctwAux fuel (min (cur + ypw - 1) maxY + 1) maxY ypw).map
        (fun ws => ⟨cur, min (cur + ypw - 1) maxY⟩ :: ws)
    else some []

/-- `create_time_windows(min_year, max_year, years_per_window)`. -/
def create_time_windows (minY maxY ypw : ℤ) : Option (List Window) :=
  ctwAux ((maxY - minY).toNat + 1) minY maxY ypw

/-- `get_bin_cell(lat, lon, bin_size)` (`src/preprocess.py`, lines 105-109):

    bin_lat = int(lat * (1 / bin_size)) * bin_size
    bin_lon = int(lon * (1 / bin_size)) * bin_size
    return f"{bin_lat:.1f}_{bin_lon:.1f}"

The returned string is modelled as the pair of its two one-decimal
components (see module comment). -/
def get_bin_cell (lat lon bin_size : ℚ) : ℚ × ℚ :=
  (fmt1 (pyInt (lat * (1 / bin_size)) * bin_size),
   fmt1 (pyInt (lon * (1 / bin_size)) * bin_size))

/-- Modelled from the spec (section 4.4), for comparison with the source's
`get_bin_cell`: the cell key components are
`binLat = floor(lat / binSize) * binSize` (one decimal place) and
analogously for longitude. -/
def get_bin_cell_floor (lat lon bin_size : ℚ) : ℚ × ℚ :=
  (fmt1 (⌊lat / bin_size⌋ * bin_size), fmt1 (⌊lon / bin_size⌋ * bin_size))

/-- The pair of raw bin indices of a point: two points lie in the same
`bin_size`-bin exactly when their index pairs agree. -/
def binIndexPair (lat lon bin_size : ℚ) : ℤ × ℤ :=
  (pyInt (lat * (1 / bin_size)), pyInt (lon * (1 / bin_size)))

/-- A row surviving the validity filter, as consumed by
`aggregate_incidents`: coordinates plus the year of its parsed date (the
only part of the date the aggregation reads, via `dt.year`). -/
structure Record where
  lat : ℚ
  lon : ℚ
  year : ℤ
deriving DecidableEq, Repr

/-- One feature emitted by `aggregate_incidents`, generic in the cell-id
type `C` (a string for H3, a rendered pair for the bin grid). -/
structure Feature (C : Type) where
  w : ℤ × ℤ
  lat : ℚ
  lon : ℚ
  n : ℕ
  cell : C
deriving DecidableEq, Repr

/-- The CONUS filter of `aggregate_incidents` (lines 122-124):
`24 <= lat <= 50 and -125 <= lon <= -66`. -/
def conusApply (conus_only : Bool) (rs : List Record) : List Record :=
  if conus_only then
    rs.filter (fun r => 24 ≤ r.lat ∧ r.lat ≤ 50 ∧ -125 ≤ r.lon ∧ r.lon ≤ -66)
  else rs

/-- The per-window row filter of `aggregate_incidents` (lines 133-134):
records whose parsed date's year lies in `[start, end]`. -/
def inWindow (w : Window) (r : Record) : Prop :=
  w.start ≤ r.year ∧ r.year ≤ w.endYear

instance (w : Window) (r : Record) : Decidable (inWindow w r) :=
  inferInstanceAs (Decidable (_ ∧ _))

/-- One iteration of the window loop of `aggregate_incidents`
(lines 128-172): filter the rows to the window, group them by spatial cell
(`cellFn` is the active strategy: `get_h3_cell` or `get_bin_cell` at the
current resolution), and emit one feature per nonempty group, carrying the
window bounds, the group's mean coordinates rounded to six decimals, and
the group size.  `groupby` is modelled by iterating over the distinct cell
values (`dedup`); an empty window contributes no features, exactly as the
`continue` in the source. -/
def aggregateWindow {C : Type} [DecidableEq C] (cellFn : Record → C)
    (w : Window) (rs : List Record) : List (Feature C) :=
  let wd := rs.filter (fun r => inWindow w r)
  ((wd.map cellFn).dedup).map (fun c =>
    let g := wd.filter (fun r => cellFn r = c)
    { w := (w.start, w.endYear),
      lat := round6 (listMean (g.map Record.lat)),
      lon := round6 (listMean (g.map Record.lon)),
      n := g.length,
      cell := c })

/-- `aggregate_incidents(df, ..., windows, ...)` (lines 112-174): apply the
CONUS filter when requested, then run the window loop over all windows. -/
def aggregate_incidents {C : Type} [DecidableEq C] (cellFn : Record → C)
    (windows : List Window) (rs : List Record) (conus_only : Bool) :
    List (Feature C) :=
  (windows.map (fun w => aggregateWindow cellFn w (conusApply conus_only rs))).flatten

/-- A parsed calendar date (a `pandas` `Timestamp`'s date part). -/
structure PDate where
  year : ℤ
  month : ℤ
  day : ℤ
deriving DecidableEq, Repr

/-- Year range representable by `pandas` `Timestamp`s of the form
`July 1 of year y` (the `datetime64[ns]` domain spans 1677-09-21 to
2262-04-11, so July 1 is representable exactly for these years). -/
def timestampYearOk (y : ℤ) : Prop := 1678 ≤ y ∧ y ≤ 2261

instance (y : ℤ) : Decidable (timestampYearOk y) :=
  inferInstanceAs (Decidable (_ ∧ _))

/-- The bare-year branch of `parse_date_column` (lines 75-77), per cell:

    pd.to_datetime(df[date_col].astype(str) + '-07-01', errors='coerce')

A present year `y` becomes the date `y-07-01`; a year outside the
`Timestamp` domain (or a missing value) coerces to `NaT` (`none`). -/
def parseYearCell (cell : Option ℤ) : Option PDate :=
  match cell with
  | none => none
  | some y => if timestampYearOk y then some ⟨y, 7, 1⟩ else none

/-- The bare-year branch of `parse_date_column` applied to the whole
column, row-aligned with the input. -/
def parse_date_column_year (col : List (Option ℤ)) : List (Option PDate) :=
  col.map parseYearCell

/-- An input row as it stands right before the validity filter in `main`
(lines 202-208): possibly-missing coordinates and the possibly-`NaT`
result of `parse_date_column`. -/
structure RawRow where
  lat : Option ℚ
  lon : Option ℚ
  pdate : Option PDate
deriving DecidableEq, Repr

/-- The validity filter of `main` (lines 203-208):

    valid_dates = df['parsed_date'].notna()
    valid_coords = df[lat_col].notna() & df[lon_col].notna()
    df = df[valid_dates & valid_coords]

A row survives exactly when all three fields are present; the surviving
rows become the `Record`s consumed by aggregation (which reads the date
only through `dt.year`).  No range check of any kind is performed. -/
def validRows (rows : List RawRow) : List Record :=
  rows.filterMap (fun row =>
    match row.lat, row.lon, row.pdate with
    | some a, some b, some d => some ⟨a, b, d.year⟩
    | _, _, _ => none)

/-- The output artifact content relevant to the claims: the window list
recorded in `meta.windows` and the feature list. -/
structure OutputData (C : Type) where
  windows : List Window
  features : List (Feature C)
deriving DecidableEq

/-- The pipeline of `main` from the validity filter to the first aggregated
artifact (lines 202-235): filter rows, derive `min_year`/`max_year` from
the surviving parsed dates, build the windows, aggregate.  An empty
surviving set makes `min()`/`max()` return `NaN`, and the loop guard
`current_start <= max_year` of `create_time_windows` is then false at once
(every comparison with `NaN` is false), yielding no windows; this is
modelled by the `none` branch of `min?`/`max?`.  `none` as the overall
result models a diverging run (fuel exhaustion in `create_time_windows`,
possible only for `years_per_window <= 0`); in every other case the run
completes and the artifact is written — `main` raises no error on an empty
valid-record set. -/
def runPipeline {C : Type} [DecidableEq C] (cellFn : Record → C)
    (rows : List RawRow) (ypw : ℤ) (conus_only : Bool) :
    Option (OutputData C) :=
  let recs := validRows rows
  let years := recs.map Record.year
  match years.min?, years.max? with
  | some mn, some mx =>
    (create_time_windows mn mx ypw).map
      (fun ws => ⟨ws, aggregate_incidents cellFn ws recs conus_only⟩)
  | _, _ => some ⟨[], aggregate_incidents cellFn [] recs conus_only⟩

/-- The spatial resolution in force for a run: an H3 resolution level or a
bin size. -/
inductive GridRes : Type
  | h3 (res : ℤ)
  | bin (size : ℚ)
deriving DecidableEq

/-- One coarsening step as performed inside the size check of `main`
(lines 256-268): for H3, `args.h3_res = max(5, args.h3_res - 1)` guarded by
`args.h3_res > 5`; for the bin grid, `args.bin_size = min(0.2,
args.bin_size * 2)` guarded by `args.bin_size < 0.2`.  At the floor/cap the
resolution is left unchanged. -/
def coarsenOnce : GridRes → GridRes
  | .h3 r => if 5 < r then .h3 (max 5 (r - 1)) else .h3 r
  | .bin b => if b < 1/5 then .bin (min (1/5) (2 * b)) else .bin b

/-- The budget check of `main` (lines 251-275), abstracted over the
serialized byte size of the artifact produced at each resolution
(`size_of`): measure the size at the initial resolution; if it exceeds the
budget and the resolution can be coarsened, coarsen ONCE, re-aggregate and
re-measure; the result — whether or not it now fits the budget — is then
written.  There is no loop in the source: this `if` runs a single time. -/
def budgetControl (size_of : GridRes → ℚ) (maxSize : ℚ) (g : GridRes) :
    GridRes × ℚ :=
  let s := size_of g
  if maxSize < s then
    match g with
    | .h3 r =>
      if 5 < r then
        let g2 := GridRes.h3 (max 5 (r - 1))
        (g2, size_of g2)
      else (g, s)
    | .bin b =>
      if b < 1/5 then
        let g2 := GridRes.bin (min (1/5) (2 * b))
        (g2, size_of g2)
      else (g, s)
  else (g, s)

/-- Number of distinct cell identifiers the bin strategy produces for a
point set at a given bin size. -/
def distinctCells (bin_size : ℚ) (pts : List (ℚ × ℚ)) : ℕ :=
  ((pts.map (fun p => get_bin_cell p.1 p.2 bin_size)).toFinset).card

/-- A bin size is an exact multiple of one tenth of a degree. -/
def isTenthMultiple (b : ℚ) : Prop := ∃ k : ℤ, b = (k : ℚ) / 10

/-! ### Basic facts about the numeric helpers -/

lemma pyInt_of_nonneg {q : ℚ} (h : 0 ≤ q) : pyInt q = ⌊q⌋ := if_pos h

lemma pyInt_intCast (k : ℤ) : pyInt (k : ℚ) = k := by
  unfold pyInt
  split <;> simp

lemma roundHalfEven_intCast (n : ℤ) : roundHalfEven (n : ℚ) = n := by
  unfold roundHalfEven
  rw [Int.fract_intCast]
  norm_num

lemma fmt1_tenth (k : ℤ) : fmt1 ((k : ℚ) / 10) = (k : ℚ) / 10 := by
  unfold fmt1
  rw [div_mul_cancel₀ _ (by norm_num : (10 : ℚ) ≠ 0), roundHalfEven_intCast]

lemma abs_roundHalfEven_sub (q : ℚ) : |(roundHalfEven q : ℚ) - q| ≤ 1/2 := by
  unfold roundHalfEven
  split
  · rename_i h
    have hfr : q - ⌊q⌋ = 1/2 := by rw [Int.self_sub_floor]; exact h
    split <;> push_cast <;> rw [abs_le] <;> constructor <;> linarith
  · rw [abs_sub_comm]
    exact abs_sub_round q

lemma floor_half_of_nonneg {q : ℚ} (h : 0 ≤ q) : ⌊q / 2⌋ = ⌊q⌋.tdiv 2 := by
  have hk : 0 ≤ ⌊q⌋ := Int.floor_nonneg.mpr h
  rw [Int.tdiv_eq_ediv hk (by norm_num)]
  have hmod : ⌊q⌋ = 2 * (⌊q⌋ / 2) + ⌊q⌋ % 2 := (Int.ediv_add_emod _ _).symm
  have hr0 : 0 ≤ ⌊q⌋ % 2 := Int.emod_nonneg _ (by norm_num)
  have hr1 : ⌊q⌋ % 2 < 2 := Int.emod_lt_of_pos _ (by norm_num)
  have hfl : (⌊q⌋ : ℚ) ≤ q := Int.floor_le q
  have hfu : q < ⌊q⌋ + 1 := Int.lt_floor_add_one q
  rw [Int.floor_eq_iff]
  constructor
  · have : ((2 * (⌊q⌋ / 2) : ℤ) : ℚ) ≤ (⌊q⌋ : ℚ) := by exact_mod_cast by omega
    push_cast at this ⊢
    linarith
  · have : ((⌊q⌋ + 1 : ℤ) : ℚ) ≤ ((2 * (⌊q⌋ / 2) + 2 : ℤ) : ℚ) := by exact_mod_cast by omega
    push_cast at this ⊢
    linarith

lemma pyInt_half (q : ℚ) : pyInt (q / 2) = (pyInt q).tdiv 2 := by
  rcases le_or_lt 0 q with h | h
  · have h2 : 0 ≤ q / 2 := by linarith
    rw [pyInt_of_nonneg h, pyInt_of_nonneg h2, floor_half_of_nonneg h]
  · have h2 : q / 2 < 0 := by linarith
    have e1 : pyInt q = ⌈q⌉ := if_neg (by linarith)
    have e2 : pyInt (q / 2) = ⌈q / 2⌉ := if_neg (by linarith)
    rw [e1, e2]
    have hneg : ⌈q⌉ = -⌊-q⌋ := by
      have h3 := Int.ceil_neg (a := -q)
      rwa [neg_neg] at h3
    have hneg2 : ⌈q / 2⌉ = -⌊(-q) / 2⌋ := by
      rw [show (-q) / 2 = -(q / 2) by ring, ← Int.ceil_neg, neg_neg]
    rw [hneg, hneg2, floor_half_of_nonneg (by linarith : (0:ℚ) ≤ -q), Int.neg_tdiv]

/-! ### Evaluation helpers for concrete grid-cell computations -/

lemma pyInt_eval {q : ℚ} {k : ℤ} (hnn : 0 ≤ q → ⌊q⌋ = k) (hneg : ¬ 0 ≤ q → ⌈q⌉ = k) :
    pyInt q = k := by
  unfold pyInt
  split
  · exact hnn ‹_›
  · exact hneg ‹_›

lemma roundHalfEven_eval {q : ℚ} {k : ℤ} (hne : Int.fract q ≠ 1/2) (hr : round q = k) :
    roundHalfEven q = k := by
  unfold roundHalfEven
  rw [if_neg hne, hr]

lemma get_bin_cell_eval {lat lon b : ℚ} {kla klo rla rlo : ℤ}
    (h1 : pyInt (lat * (1 / b)) = kla) (h2 : pyInt (lon * (1 / b)) = klo)
    (h3 : roundHalfEven ((kla : ℚ) * b * 10) = rla)
    (h4 : roundHalfEven ((klo : ℚ) * b * 10) = rlo) :
    get_bin_cell lat lon b = ((rla : ℚ) / 10, (rlo : ℚ) / 10) := by
  unfold get_bin_cell fmt1
  rw [h1, h2, h3, h4]

lemma get_bin_cell_floor_eval {lat lon b : ℚ} {kla klo rla rlo : ℤ}
    (h1 : ⌊lat / b⌋ = kla) (h2 : ⌊lon / b⌋ = klo)
    (h3 : roundHalfEven ((kla : ℚ) * b * 10) = rla)
    (h4 : roundHalfEven ((klo : ℚ) * b * 10) = rlo) :
    get_bin_cell_floor lat lon b = ((rla : ℚ) / 10, (rlo : ℚ) / 10) := by
  unfold get_bin_cell_floor fmt1
  rw [h1, h2, h3, h4]

/-! ### Claim C9: bare-year dates normalize to July 1 -/

/-- Claim C9: for every record whose date field is a bare year, the
normalizer produces July 1 of that year as the canonical date; whenever a
date is produced at all, its month is `7` (and its day `1`, and its year is
the input year). -/
theorem claim_C9_bare_year_july :
    ∀ (cell : Option ℤ) (d : PDate), parseYearCell cell = some d →
      d.month = 7 ∧ d.day = 1 ∧ cell = some d.year := by
  intro cell d h
  cases cell with
  | none => simp [parseYearCell] at h
  | some y =>
    unfold parseYearCell at h
    dsimp only [] at h
    by_cases hy : timestampYearOk y
    · rw [if_pos hy] at h
      cases h
      exact ⟨rfl, rfl, rfl⟩
    · rw [if_neg hy] at h
      cases h

/-- Witness for claim C9 at the concrete year 1995. -/
theorem claim_C9_witness :
    (⟨1995, 7, 1⟩ : PDate).month = 7 ∧ (⟨1995, 7, 1⟩ : PDate).day = 1 ∧
      (some 1995 : Option ℤ) = some (⟨1995, 7, 1⟩ : PDate).year :=
  claim_C9_bare_year_july (some 1995) ⟨1995, 7, 1⟩ rfl

/-! ### Claim C6: what the validity filter actually checks -/

/-- Claim C6 counterexample: a row with latitude 200 — far outside
`[-90, 90]` — passes the validity filter of `main` and enters aggregation
as a record, because the filter checks only that the fields are present,
never their numeric range. -/
theorem claim_C6_cex :
    validRows [⟨some 200, some 0, some ⟨2000, 7, 1⟩⟩] = [⟨200, 0, 2000⟩] ∧
      ¬ ((⟨200, 0, 2000⟩ : Record).lat ≤ 90) :=
  ⟨rfl, by norm_num⟩

/-- Claim C6 as amended: every record entering aggregation comes from an
input row whose latitude, longitude and parsed date are all present
(non-missing); presence is the only thing the validity filter checks, so
no coordinate-range invariant holds. -/
theorem claim_C6_amended_presence_only :
    ∀ (rows : List RawRow) (r : Record), r ∈ validRows rows →
      ∃ row ∈ rows, row.lat = some r.lat ∧ row.lon = some r.lon ∧
        ∃ d, row.pdate = some d ∧ d.year = r.year := by
  intro rows r hr
  obtain ⟨row, hrow, hsome⟩ := List.mem_filterMap.mp hr
  refine ⟨row, hrow, ?_⟩
  rcases row with ⟨la, lo, pd⟩
  cases la with
  | none => simp at hsome
  | some a =>
    cases lo with
    | none => simp at hsome
    | some b =>
      cases pd with
      | none => simp at hsome
      | some d =>
        obtain rfl := Option.some.inj hsome
        exact ⟨rfl, rfl, d, rfl, rfl⟩

/-- Witness for the amended claim C6 at a concrete one-row table. -/
theorem claim_C6_witness :
    ∃ row ∈ [(⟨some 1, some 2, some ⟨2000, 7, 1⟩⟩ : RawRow)],
      row.lat = some (⟨1, 2, 2000⟩ : Record).lat ∧
      row.lon = some (⟨1, 2, 2000⟩ : Record).lon ∧
      ∃ d, row.pdate = some d ∧ d.year = (⟨1, 2, 2000⟩ : Record).year :=
  claim_C6_amended_presence_only _ ⟨1, 2, 2000⟩
    (by rw [show validRows [⟨some 1, some 2, some ⟨2000, 7, 1⟩⟩] =
          [⟨1, 2, 2000⟩] from rfl]; exact List.mem_singleton.mpr rfl)

/-! ### Claim C4: behaviour of the run when no valid rows survive -/

/-- Claim C4 counterexample: with an empty table (no valid rows at all) the
run COMPLETES and produces an output artifact with empty `meta.windows` and
empty `features` — it does not fail, and no `InvalidRangeError` exists
anywhere in the code.  (`some` is a completed run whose artifact is
written; a fatal abort before writing would have to be a different
result.) -/
theorem claim_C4_cex :
    runPipeline Record.year ([] : List RawRow) 3 false =
      some ⟨[], []⟩ := rfl

/-- Claim C4 as amended: whenever no rows survive the validity filter, the
derived year range is empty (`min`/`max` of an empty column is `NaN`), the
`NaN`-guarded window loop produces no windows, aggregation produces no
features, and the run completes normally, writing an artifact with empty
windows and features — for every years-per-window setting, even a
non-positive one. -/
theorem claim_C4_amended_empty_completes :
    ∀ {C : Type} [DecidableEq C] (cellFn : Record → C)
      (rows : List RawRow) (ypw : ℤ) (conus_only : Bool),
      validRows rows = [] →
      runPipeline cellFn rows ypw conus_only = some ⟨[], []⟩ := by
  intro C _ cellFn rows ypw conus_only h
  unfold runPipeline
  rw [h]
  simp [aggregate_incidents]

/-- Witness for the amended claim C4: a one-row table whose single row is
missing its latitude. -/
theorem claim_C4_witness :
    runPipeline Record.year [(⟨none, some 0, some ⟨2000, 7, 1⟩⟩ : RawRow)]
      3 false = some ⟨[], []⟩ :=
  claim_C4_amended_empty_completes Record.year _ 3 false rfl

/-! ### Claim C3: the budget controller performs at most one coarsening -/

/-- Claim C3 counterexample: with a serialized size of 100 at every
resolution and a budget of 50, a run starting at H3 resolution 8 coarsens
once to resolution 7 and then ACCEPTS the still-oversized result, although
the resolution (7) has not bottomed out at the floor (5) — there is no
"repeat until the ceiling is met or resolution bottoms out" loop in the
code. -/
theorem claim_C3_cex :
    budgetControl (fun _ => 100) 50 (GridRes.h3 8) = (GridRes.h3 7, 100) ∧
      (50 : ℚ) < 100 ∧ (7 : ℤ) ≠ 5 := by
  refine ⟨?_, by norm_num, by norm_num⟩
  unfold budgetControl
  norm_num

/-- Claim C3 as amended: the size check runs exactly once.  If the first
aggregation fits the budget it is accepted unchanged; if it is oversized,
the resolution is coarsened a single step (H3: `max(5, res - 1)` when
`res > 5`; grid: `min(0.2, 2 * binSize)` when `binSize < 0.2`; unchanged at
the floor/cap), the aggregation is rerun once at the new resolution, and
that result is accepted whether or not it fits the budget. -/
theorem claim_C3_amended_single_step :
    ∀ (size_of : GridRes → ℚ) (maxSize : ℚ) (g : GridRes),
      (size_of g ≤ maxSize → budgetControl size_of maxSize g = (g, size_of g)) ∧
      (maxSize < size_of g →
        budgetControl size_of maxSize g =
          (coarsenOnce g, size_of (coarsenOnce g))) := by
  intro size_of maxSize g
  constructor
  · intro h
    unfold budgetControl
    rw [if_neg (not_lt.mpr h)]
  · intro h
    cases g with
    | h3 r =>
      by_cases h5 : 5 < r
      · simp only [budgetControl, coarsenOnce, if_pos h, if_pos h5]
      · simp only [budgetControl, coarsenOnce, if_pos h, if_neg h5]
    | bin b =>
      by_cases h5 : b < 1/5
      · simp only [budgetControl, coarsenOnce, if_pos h, if_pos h5]
      · simp only [budgetControl, coarsenOnce, if_pos h, if_neg h5]

/-- Witness for the amended claim C3: an oversized run at bin size 0.1
coarsens exactly once (to 0.2) and accepts the re-measured result. -/
theorem claim_C3_witness :
    (50 : ℚ) < 100 ∧
      budgetControl (fun _ => 100) 50 (GridRes.bin (1/10)) =
        (coarsenOnce (GridRes.bin (1/10)), 100) :=
  ⟨by norm_num, (claim_C3_amended_single_step (fun _ => 100) 50
      (GridRes.bin (1/10))).2 (by norm_num)⟩

/-! ### Claim C5: the grid cell key versus the floor formula -/

/-- Claim C5 counterexample: at latitude -0.05, longitude 0 and bin size
0.1, the code's cell key has first component `0.0` (Python's `int()`
truncates -0.5 toward zero), while the spec's
`floor(lat / binSize) * binSize` formula gives `-0.1` — the claimed
identity fails for negative coordinates. -/
theorem claim_C5_cex :
    get_bin_cell (-(1/20)) 0 (1/10) ≠ get_bin_cell_floor (-(1/20)) 0 (1/10) := by
  have ha : pyInt (-(1/20) * (1 / (1/10))) = 0 := by
    unfold pyInt
    norm_num
  have hb : pyInt ((0 : ℚ) * (1 / (1/10))) = 0 := by
    unfold pyInt
    norm_num
  have hc : roundHalfEven (((0 : ℤ) : ℚ) * (1/10) * 10) = 0 := by
    unfold roundHalfEven
    rw [Int.fract]
    norm_num [round_eq]
  have hfa : ⌊(-(1/20) : ℚ) / (1/10)⌋ = -1 := by norm_num
  have hfb : ⌊(0 : ℚ) / (1/10)⌋ = 0 := by norm_num
  have hd : roundHalfEven (((-1 : ℤ) : ℚ) * (1/10) * 10) = -1 := by
    unfold roundHalfEven
    rw [Int.fract]
    norm_num [round_eq]
  have h1 : get_bin_cell (-(1/20)) 0 (1/10) = (((0 : ℤ) : ℚ) / 10, ((0 : ℤ) : ℚ) / 10) :=
    get_bin_cell_eval ha hb hc hc
  have h2 : get_bin_cell_floor (-(1/20)) 0 (1/10) =
      (((-1 : ℤ) : ℚ) / 10, ((0 : ℤ) : ℚ) / 10) :=
    get_bin_cell_floor_eval hfa hfb hd hc
  rw [h1, h2]
  intro hcontra
  rw [Prod.mk.injEq] at hcontra
  have := hcontra.1
  norm_num at this

/-- Claim C5 as amended: the cell key components are
`trunc(lat * (1 / binSize)) * binSize` with truncation toward zero
(Python's `int()`), rendered to one decimal place.  This agrees with the
spec's floor formula exactly on nonnegative coordinates (so the claim holds
there), but not on negative ones. -/
theorem claim_C5_amended_floor_on_nonneg :
    ∀ (lat lon b : ℚ), 0 < b → 0 ≤ lat → 0 ≤ lon →
      get_bin_cell lat lon b = get_bin_cell_floor lat lon b := by
  intro lat lon b hb hlat hlon
  have hbinv : (0 : ℚ) ≤ 1 / b := by positivity
  unfold get_bin_cell get_bin_cell_floor
  rw [pyInt_of_nonneg (mul_nonneg hlat hbinv),
    pyInt_of_nonneg (mul_nonneg hlon hbinv), mul_one_div, mul_one_div]

/-- Witness for the amended claim C5 at latitude 0.25, longitude 0.65, bin
size 0.1. -/
theorem claim_C5_witness :
    (0 : ℚ) < 1/10 ∧ (0 : ℚ) ≤ 1/4 ∧ (0 : ℚ) ≤ 13/20 ∧
      get_bin_cell (1/4) (13/20) (1/10) = get_bin_cell_floor (1/4) (13/20) (1/10) :=
  ⟨by norm_num, by norm_num, by norm_num,
    claim_C5_amended_floor_on_nonneg (1/4) (13/20) (1/10)
      (by norm_num) (by norm_num) (by norm_num)⟩

/-! ### Claim C1: per-window feature counts partition the record count -/

lemma sum_counts_by_key {α C : Type} [DecidableEq C] (l : List α) (f : α → C) :
    (((l.map f).dedup).map (fun c => (l.filter (fun a => f a = c)).length)).sum
      = l.length := by
  have h1 : ∀ c, (l.filter (fun a => f a = c)).length = (l.map f).count c := by
    intro c
    rw [List.count_eq_countP, List.countP_map, ← List.countP_eq_length_filter]
    rfl
  simp only [h1]
  simpa using List.sum_map_count_dedup_eq_length (l.map f)

/-- Claim C1: for every window and every fixed spatial strategy and
resolution (an arbitrary cell function covers both the grid and the
hierarchical strategy at any resolution), the sum of the `n` values of the
features emitted for that window equals the number of records — those
surviving the validity filter, and the CONUS filter when enabled — whose
year falls within the window's `[start, end]` range.  (`aggregate_incidents`
is by definition the concatenation of `aggregateWindow` over the window
list, each run on the CONUS-filtered records.) -/
theorem claim_C1_window_count_partition :
    ∀ {C : Type} [DecidableEq C] (cellFn : Record → C) (w : Window)
      (rs : List Record) (conus_only : Bool),
      ((aggregateWindow cellFn w (conusApply conus_only rs)).map Feature.n).sum =
        ((conusApply conus_only rs).filter (fun r => inWindow w r)).length := by
  intro C _ cellFn w rs conus_only
  show ((List.map Feature.n (aggregateWindow cellFn w (conusApply conus_only rs))).sum = _)
  unfold aggregateWindow
  rw [List.map_map]
  exact sum_counts_by_key ((conusApply conus_only rs).filter (fun r => inWindow w r)) cellFn

/-! ### Claim C7: every feature matches a window and has a positive count -/

/-- Claim C7: every feature emitted by `aggregate_incidents` carries a `w`
pair equal to the bounds of one of the windows in the list recorded in
`meta.windows`, and has count `n ≥ 1`; moreover a window whose record
subset is empty emits no features at all. -/
theorem claim_C7_feature_invariants :
    (∀ {C : Type} [DecidableEq C] (cellFn : Record → C)
      (windows : List Window) (rs : List Record) (conus_only : Bool)
      (f : Feature C),
      f ∈ aggregate_incidents cellFn windows rs conus_only →
        (∃ w ∈ windows, f.w = (w.start, w.endYear)) ∧ 1 ≤ f.n) ∧
    (∀ {C : Type} [DecidableEq C] (cellFn : Record → C) (w : Window)
      (rs : List Record),
      rs.filter (fun r => inWindow w r) = [] →
        aggregateWindow cellFn w rs = []) := by
  constructor
  · intro C _ cellFn windows rs conus_only f hf
    unfold aggregate_incidents at hf
    rw [List.mem_flatten] at hf
    obtain ⟨l, hl, hfl⟩ := hf
    rw [List.mem_map] at hl
    obtain ⟨w, hw, rfl⟩ := hl
    unfold aggregateWindow at hfl
    rw [List.mem_map] at hfl
    obtain ⟨c, hc, rfl⟩ := hfl
    refine ⟨⟨w, hw, rfl⟩, ?_⟩
    rw [List.mem_dedup, List.mem_map] at hc
    obtain ⟨r, hr, rfl⟩ := hc
    have hmem : r ∈ ((conusApply conus_only rs).filter
        (fun r => inWindow w r)).filter (fun a => cellFn a = cellFn r) := by
      rw [List.mem_filter]
      exact ⟨hr, by simp⟩
    calc 1 ≤ 1 := le_refl 1
    _ ≤ _ := List.length_pos.mpr (List.ne_nil_of_mem hmem)
  · intro C _ cellFn w rs h
    unfold aggregateWindow
    rw [h]
    simp

/-- Witness for claim C7 at a concrete one-record, one-window aggregation
with a constant cell function. -/
theorem claim_C7_witness :
    (∃ w ∈ [(⟨2000, 2000⟩ : Window)],
      (⟨(2000, 2000), round6 (listMean [(0 : ℚ)]), round6 (listMean [(0 : ℚ)]),
        1, (0 : ℤ)⟩ : Feature ℤ).w = (w.start, w.endYear)) ∧
    1 ≤ (⟨(2000, 2000), round6 (listMean [(0 : ℚ)]), round6 (listMean [(0 : ℚ)]),
        1, (0 : ℤ)⟩ : Feature ℤ).n :=
  claim_C7_feature_invariants.1 (fun _ => (0 : ℤ)) [⟨2000, 2000⟩]
    [⟨0, 0, 2000⟩] false _
    (by rw [show aggregate_incidents (fun _ => (0 : ℤ)) [⟨2000, 2000⟩]
          [⟨0, 0, 2000⟩] false =
          [⟨(2000, 2000), round6 (listMean [(0 : ℚ)]),
            round6 (listMean [(0 : ℚ)]), 1, (0 : ℤ)⟩] from rfl]
        exact List.mem_singleton.mpr rfl)

/-! ### Claim C2: the window builder partitions the year range -/

lemma ctwAux_of_gt (fuel : ℕ) (cur maxY ypw : ℤ) (h : maxY < cur) :
    ctwAux fuel cur maxY ypw = some [] := by
  cases fuel <;> simp [ctwAux, show ¬ cur ≤ maxY by omega]

lemma ctwAux_spec (fuel : ℕ) :
    ∀ (cur maxY ypw : ℤ), 1 ≤ ypw → cur ≤ maxY → (maxY - cur).toNat < fuel →
    ∃ w0 ws', ctwAux fuel cur maxY ypw = some (w0 :: ws') ∧
      w0.start = cur ∧
      (∀ win ∈ w0 :: ws', cur ≤ win.start ∧ win.start ≤ win.endYear ∧
        win.endYear ≤ maxY ∧ win.endYear - win.start + 1 ≤ ypw) ∧
      (∀ y : ℤ, (∃ win ∈ w0 :: ws', win.start ≤ y ∧ y ≤ win.endYear) ↔
        (cur ≤ y ∧ y ≤ maxY)) ∧
      (w0 :: ws').Chain' (fun a b => b.start = a.endYear + 1) ∧
      (w0 :: ws').Pairwise (fun a b => a.endYear < b.start) := by
  induction fuel with
  | zero => intro cur maxY ypw _ _ h3; omega
  | succ f ih =>
    intro cur maxY ypw h1 h2 h3
    rw [ctwAux, if_pos h2]
    set e := min (cur + ypw - 1) maxY with he
    have hce : cur ≤ e := by omega
    have heM : e ≤ maxY := by omega
    by_cases hlast : maxY < e + 1
    · have hnil : ctwAux f (e + 1) maxY ypw = some [] :=
        ctwAux_of_gt f _ _ _ (by omega)
      rw [hnil]
      refine ⟨⟨cur, e⟩, [], rfl, rfl, ?_, ?_, ?_, ?_⟩
      · intro win hwin
        rw [List.mem_singleton] at hwin
        subst hwin
        refine ⟨le_refl _, hce, heM, ?_⟩
        dsimp only
        omega
      · intro y
        simp only [List.mem_singleton]
        constructor
        · rintro ⟨win, rfl, hy1, hy2⟩
          dsimp only at hy1 hy2
          exact ⟨by omega, by omega⟩
        · intro hy
          refine ⟨⟨cur, e⟩, rfl, ?_, ?_⟩ <;> dsimp only <;> omega
      · simp
      · simp
    · obtain ⟨w1, ws1, hrec, hw1, hbounds, hunion, hchain, hpw⟩ :=
        ih (e + 1) maxY ypw h1 (by omega) (by omega)
      rw [hrec]
      refine ⟨⟨cur, e⟩, w1 :: ws1, rfl, rfl, ?_, ?_, ?_, ?_⟩
      · intro win hwin
        rcases List.mem_cons.mp hwin with h | h
        · subst h
          refine ⟨le_refl _, hce, heM, ?_⟩
          dsimp only
          omega
        · obtain ⟨ha, hb, hc, hd⟩ := hbounds win h
          exact ⟨by omega, hb, hc, hd⟩
      · intro y
        constructor
        · rintro ⟨win, hwin, hy1, hy2⟩
          rcases List.mem_cons.mp hwin with h | h
          · subst h
            dsimp only at hy1 hy2
            exact ⟨by omega, by omega⟩
          · have := (hunion y).mp ⟨win, h, hy1, hy2⟩
            exact ⟨by omega, this.2⟩
        · intro hy
          by_cases hsplit : y ≤ e
          · refine ⟨⟨cur, e⟩, List.mem_cons_self _ _, ?_, ?_⟩ <;> dsimp only <;> omega
          · obtain ⟨win, hwin, hws⟩ := (hunion y).mpr ⟨by omega, hy.2⟩
            exact ⟨win, List.mem_cons_of_mem _ hwin, hws⟩
      · rw [List.chain'_cons]
        refine ⟨?_, hchain⟩
        rw [hw1]
      · refine List.Pairwise.cons ?_ hpw
        intro b hb
        have hb1 := (hbounds b hb).1
        dsimp only
        omega

/-- Claim C2: for `minYear ≤ maxYear` and `windowLength ≥ 1`,
`create_time_windows` terminates and returns a nonempty window list that is
sorted and non-overlapping (each window ends strictly before the next
starts), contiguous (each window starts exactly one year after the
previous ends), whose `[start, end]` ranges cover exactly `[minYear,
maxYear]`, with every window satisfying `end - start + 1 ≤ windowLength`;
`minYear = maxYear` yields exactly the single one-year window. -/
theorem claim_C2_windows_partition_range :
    ∀ (minY maxY ypw : ℤ), minY ≤ maxY → 1 ≤ ypw →
      ∃ ws : List Window, create_time_windows minY maxY ypw = some ws ∧
        ws ≠ [] ∧
        (∀ win ∈ ws, win.start ≤ win.endYear ∧
          win.endYear - win.start + 1 ≤ ypw) ∧
        (∀ y : ℤ, (∃ win ∈ ws, win.start ≤ y ∧ y ≤ win.endYear) ↔
          (minY ≤ y ∧ y ≤ maxY)) ∧
        ws.Chain' (fun a b => b.start = a.endYear + 1) ∧
        ws.Pairwise (fun a b => a.endYear < b.start) ∧
        (minY = maxY → ws = [⟨minY, minY⟩]) := by
  intro minY maxY ypw hle hypw
  obtain ⟨w0, ws', hrun, hw0, hbounds, hunion, hchain, hpw⟩ :=
    ctwAux_spec ((maxY - minY).toNat + 1) minY maxY ypw hypw hle (by omega)
  refine ⟨w0 :: ws', hrun, by simp, ?_, hunion, hchain, hpw, ?_⟩
  · intro win hwin
    obtain ⟨_, hb, _, hd⟩ := hbounds win hwin
    exact ⟨hb, hd⟩
  · intro heq
    subst heq
    have h0 := hbounds w0 (List.mem_cons_self _ _)
    have hw0e : w0 = ⟨minY, minY⟩ := by
      rcases w0 with ⟨s, t⟩
      dsimp only at h0 hw0
      simp only [Window.mk.injEq]
      omega
    cases ws' with
    | nil => rw [hw0e]
    | cons w1 rest =>
      exfalso
      have hb1 := hbounds w1 (List.mem_cons_of_mem _ (List.mem_cons_self _ _))
      have hlt := (List.pairwise_cons.mp hpw).1 w1 (List.mem_cons_self _ _)
      omega

/-- Witness for claim C2 at the concrete range 1995-2002 with 3-year
windows (the configuration of the repository's own test suite). -/
theorem claim_C2_witness :
    ∃ ws : List Window, create_time_windows 1995 2002 3 = some ws ∧
      ws ≠ [] ∧
      (∀ win ∈ ws, win.start ≤ win.endYear ∧
        win.endYear - win.start + 1 ≤ 3) ∧
      (∀ y : ℤ, (∃ win ∈ ws, win.start ≤ y ∧ y ≤ win.endYear) ↔
        (1995 ≤ y ∧ y ≤ 2002)) ∧
      ws.Chain' (fun a b => b.start = a.endYear + 1) ∧
      ws.Pairwise (fun a b => a.endYear < b.start) ∧
      ((1995 : ℤ) = 2002 → ws = [⟨1995, 1995⟩]) :=
  claim_C2_windows_partition_range 1995 2002 3 (by norm_num) (by norm_num)

/-! ### Claim C8: coarsening and the number of distinct cells -/

lemma toFinset_card_map_le {α β : Type} [DecidableEq β] (l : List α)
    (f g : α → β) (H : β → β) (h : ∀ x ∈ l, g x = H (f x)) :
    (l.map g).toFinset.card ≤ (l.map f).toFinset.card := by
  have hsub : (l.map g).toFinset ⊆ ((l.map f).toFinset).image H := by
    intro c hc
    rw [List.mem_toFinset, List.mem_map] at hc
    obtain ⟨x, hx, rfl⟩ := hc
    rw [Finset.mem_image]
    refine ⟨f x, ?_, (h x hx).symm⟩
    rw [List.mem_toFinset, List.mem_map]
    exact ⟨x, hx, rfl⟩
  calc (l.map g).toFinset.card
      ≤ (((l.map f).toFinset).image H).card := Finset.card_le_card hsub
    _ ≤ (l.map f).toFinset.card := Finset.card_image_le

lemma fmt1_int_mul_tenth (k m : ℤ) :
    fmt1 ((k : ℚ) * ((m : ℚ) / 10)) = (k : ℚ) * ((m : ℚ) / 10) := by
  have h : (k : ℚ) * ((m : ℚ) / 10) = ((k * m : ℤ) : ℚ) / 10 := by
    push_cast
    ring
  rw [h, fmt1_tenth]

lemma bin_component_coarsen (x b : ℚ) (hb : b ≠ 0) :
    fmt1 ((pyInt (x * (1 / (2 * b))) : ℚ) * (2 * b)) =
      fmt1 ((pyInt (((pyInt (x * (1 / b)) : ℚ) * b) * (1 / (2 * b))) : ℚ) * (2 * b)) := by
  have h1 : x * (1 / (2 * b)) = (x * (1 / b)) / 2 := by
    field_simp
    exact Or.inl (mul_comm b 2)
  have h2 : ((pyInt (x * (1 / b)) : ℚ) * b) * (1 / (2 * b)) =
      ((pyInt (x * (1 / b)) : ℤ) : ℚ) / 2 := by
    field_simp
    ring
  rw [h1, h2, pyInt_half, pyInt_half, pyInt_intCast]

lemma get_bin_cell_coarsen_tenth (lat lon : ℚ) (m : ℤ) (hm : 1 ≤ m) :
    get_bin_cell lat lon (2 * ((m : ℚ) / 10)) =
      (fun p : ℚ × ℚ => get_bin_cell p.1 p.2 (2 * ((m : ℚ) / 10)))
        (get_bin_cell lat lon ((m : ℚ) / 10)) := by
  have hb : ((m : ℚ) / 10) ≠ 0 := by
    have : (0 : ℚ) < (m : ℚ) := by exact_mod_cast by omega
    positivity
  show get_bin_cell lat lon (2 * ((m : ℚ) / 10)) = _
  unfold get_bin_cell
  dsimp only
  rw [fmt1_int_mul_tenth, fmt1_int_mul_tenth,
    bin_component_coarsen lat _ hb, bin_component_coarsen lon _ hb]

/-- Claim C8 counterexample: at the permitted bin size 0.07, the two
points (0.07, 0) and (0.15, 0) lie in different bins whose one-decimal
rendered keys coincide ("0.1_0.0"), so the run has 1 distinct cell; after
the budget controller's own coarsening step (doubling to 0.14, still below
the 0.2 cap), the same two points produce the distinct keys "0.0_0.0" and
"0.1_0.0" — 2 distinct cells.  Coarsening INCREASED the number of distinct
cell identifiers. -/
theorem claim_C8_cex :
    (7/50 : ℚ) = 2 * (7/100) ∧ (7/100 : ℚ) < 7/50 ∧
      distinctCells (7/100) [(7/100, 0), (3/20, 0)] = 1 ∧
      distinctCells (7/50) [(7/100, 0), (3/20, 0)] = 2 := by
  refine ⟨by norm_num, by norm_num, ?_, ?_⟩
  · have ha : pyInt ((7/100 : ℚ) * (1 / (7/100))) = 1 := by
      unfold pyInt
      norm_num
    have hb : pyInt ((0 : ℚ) * (1 / (7/100))) = 0 := by
      unfold pyInt
      norm_num
    have hc : pyInt ((3/20 : ℚ) * (1 / (7/100))) = 2 := by
      unfold pyInt
      norm_num
    have h0 : roundHalfEven (((0 : ℤ) : ℚ) * (7/100) * 10) = 0 := by
      unfold roundHalfEven
      rw [Int.fract]
      norm_num [round_eq]
    have h1 : roundHalfEven (((1 : ℤ) : ℚ) * (7/100) * 10) = 1 := by
      unfold roundHalfEven
      rw [Int.fract]
      norm_num [round_eq]
    have h2 : roundHalfEven (((2 : ℤ) : ℚ) * (7/100) * 10) = 1 := by
      unfold roundHalfEven
      rw [Int.fract]
      norm_num [round_eq]
    have e1 : get_bin_cell (7/100) 0 (7/100) = (((1 : ℤ) : ℚ)/10, ((0 : ℤ) : ℚ)/10) :=
      get_bin_cell_eval ha hb h1 h0
    have e2 : get_bin_cell (3/20) 0 (7/100) = (((1 : ℤ) : ℚ)/10, ((0 : ℤ) : ℚ)/10) :=
      get_bin_cell_eval hc hb h2 h0
    unfold distinctCells
    rw [List.map_cons, List.map_cons, List.map_nil]
    dsimp only
    rw [e1, e2]
    simp
  · have ha : pyInt ((7/100 : ℚ) * (1 / (7/50))) = 0 := by
      unfold pyInt
      norm_num
    have hb : pyInt ((0 : ℚ) * (1 / (7/50))) = 0 := by
      unfold pyInt
      norm_num
    have hc : pyInt ((3/20 : ℚ) * (1 / (7/50))) = 1 := by
      unfold pyInt
      norm_num
    have h0 : roundHalfEven (((0 : ℤ) : ℚ) * (7/50) * 10) = 0 := by
      unfold roundHalfEven
      rw [Int.fract]
      norm_num [round_eq]
    have h1 : roundHalfEven (((1 : ℤ) : ℚ) * (7/50) * 10) = 1 := by
      unfold roundHalfEven
      rw [Int.fract]
      norm_num [round_eq]
    have e1 : get_bin_cell (7/100) 0 (7/50) = (((0 : ℤ) : ℚ)/10, ((0 : ℤ) : ℚ)/10) :=
      get_bin_cell_eval ha hb h0 h0
    have e2 : get_bin_cell (3/20) 0 (7/50) = (((1 : ℤ) : ℚ)/10, ((0 : ℤ) : ℚ)/10) :=
      get_bin_cell_eval hc hb h1 h0
    unfold distinctCells
    rw [List.map_cons, List.map_cons, List.map_nil]
    dsimp only
    rw [e1, e2]
    rw [List.toFinset_cons, List.toFinset_cons, List.toFinset_nil]
    rw [Finset.card_insert_of_not_mem (by
      intro hmem
      rw [Finset.mem_insert] at hmem
      rcases hmem with h | h
      · rw [Prod.mk.injEq] at h
        norm_num at h
      · exact Finset.not_mem_empty _ h)]
    simp

/-- Claim C8 as amended: for bin sizes that are positive integer multiples
of 0.1 — in particular for the default 0.1 doubled to 0.2 by the budget
controller — doubling the bin size never increases the number of distinct
cell identifiers for a fixed point set.  (For other permitted bin sizes the
one-decimal rendering can merge distinct fine cells and coarsening can
increase the distinct-identifier count, as the counterexample at 0.07
shows.) -/
theorem claim_C8_amended_monotone_on_tenths :
    ∀ (pts : List (ℚ × ℚ)) (m : ℤ), 1 ≤ m →
      distinctCells (2 * ((m : ℚ) / 10)) pts ≤ distinctCells ((m : ℚ) / 10) pts := by
  intro pts m hm
  unfold distinctCells
  exact toFinset_card_map_le pts
    (fun p => get_bin_cell p.1 p.2 ((m : ℚ) / 10))
    (fun p => get_bin_cell p.1 p.2 (2 * ((m : ℚ) / 10)))
    (fun p => get_bin_cell p.1 p.2 (2 * ((m : ℚ) / 10)))
    (fun p _ => get_bin_cell_coarsen_tenth p.1 p.2 m hm)

/-- Witness for the amended claim C8: doubling bin size 0.1 to 0.2 on the
test suite's two co-located New York points does not increase the distinct
cell count. -/
theorem claim_C8_witness :
    (1 : ℤ) ≤ 1 ∧
      distinctCells (2 * ((1 : ℚ) / 10)) [(407128/10000, -740060/10000)] ≤
        distinctCells ((1 : ℚ) / 10) [(407128/10000, -740060/10000)] :=
  ⟨le_refl 1, claim_C8_amended_monotone_on_tenths _ 1 (le_refl 1)⟩

/-! ### Claim C10: one-decimal rendering and identifier collisions -/

lemma roundHalfEven_eq_far_contra {x y : ℚ} (h : 1 < |x - y|)
    (heq : roundHalfEven x = roundHalfEven y) : False := by
  have h1 := abs_roundHalfEven_sub x
  have h2 := abs_roundHalfEven_sub y
  rw [heq] at h1
  have hxy : |x - y| ≤ 1 := by
    calc |x - y| ≤ |x - (roundHalfEven y : ℚ)| + |(roundHalfEven y : ℚ) - y| :=
          abs_sub_le _ _ _
      _ ≤ 1/2 + 1/2 := by
          have h1w : |x - (roundHalfEven y : ℚ)| ≤ 1/2 := by
            rw [abs_sub_comm]
            exact h1
          exact add_le_add h1w h2
      _ = 1 := by norm_num
  linarith

lemma fmt1_mul_inj {b : ℚ} (hb : 1 < 10 * b) {k1 k2 : ℤ} (hne : k1 ≠ k2) :
    fmt1 ((k1 : ℚ) * b) ≠ fmt1 ((k2 : ℚ) * b) := by
  intro heq
  unfold fmt1 at heq
  have hr : roundHalfEven ((k1 : ℚ) * b * 10) = roundHalfEven ((k2 : ℚ) * b * 10) := by
    have h10 : ((roundHalfEven ((k1 : ℚ) * b * 10) : ℤ) : ℚ) =
        ((roundHalfEven ((k2 : ℚ) * b * 10) : ℤ) : ℚ) := by
      have := heq
      field_simp at this
      exact_mod_cast this
    exact_mod_cast h10
  have hk : (1 : ℚ) ≤ |(k1 : ℚ) - (k2 : ℚ)| := by
    have h1 : (1 : ℤ) ≤ |k1 - k2| := Int.one_le_abs (by omega)
    calc (1 : ℚ) = ((1 : ℤ) : ℚ) := by norm_num
      _ ≤ ((|k1 - k2| : ℤ) : ℚ) := by exact_mod_cast h1
      _ = |(k1 : ℚ) - (k2 : ℚ)| := by
          rw [Int.cast_abs]
          push_cast
          ring_nf
  have hbpos : (0 : ℚ) < 10 * b := by linarith
  have hfar : 1 < |(k1 : ℚ) * b * 10 - (k2 : ℚ) * b * 10| := by
    calc (1 : ℚ) < 10 * b := hb
      _ = 1 * (10 * b) := (one_mul _).symm
      _ ≤ |(k1 : ℚ) - (k2 : ℚ)| * (10 * b) :=
          mul_le_mul_of_nonneg_right hk (le_of_lt hbpos)
      _ = |(k1 : ℚ) - (k2 : ℚ)| * |10 * b| := by rw [abs_of_pos hbpos]
      _ = |((k1 : ℚ) - (k2 : ℚ)) * (10 * b)| := (abs_mul _ _).symm
      _ = |(k1 : ℚ) * b * 10 - (k2 : ℚ) * b * 10| := by ring_nf
  exact roundHalfEven_eq_far_contra hfar hr

/-- Claim C10 counterexample: the bin size 0.15 is NOT a multiple of 0.1,
yet distinct bins at size 0.15 are always mapped to distinct identifiers
(consecutive bin values are 0.15 apart, more than one rendered decimal
step, so their one-decimal renderings can never coincide).  This refutes
both the parenthetical "any value that is not a multiple of 0.1" and the
final "only when the bin size is a multiple of 0.1" of the claim. -/
theorem claim_C10_cex :
    ¬ isTenthMultiple (3/20) ∧
      ∀ (lat1 lon1 lat2 lon2 : ℚ),
        binIndexPair lat1 lon1 (3/20) ≠ binIndexPair lat2 lon2 (3/20) →
        get_bin_cell lat1 lon1 (3/20) ≠ get_bin_cell lat2 lon2 (3/20) := by
  constructor
  · rintro ⟨k, hk⟩
    have h2 : ((2 * k : ℤ) : ℚ) = 3 := by
      push_cast
      linarith
    have h3 : (2 * k : ℤ) = 3 := by exact_mod_cast h2
    omega
  · intro lat1 lon1 lat2 lon2 hne hcells
    apply hne
    unfold get_bin_cell at hcells
    rw [Prod.mk.injEq] at hcells
    unfold binIndexPair
    rw [Prod.mk.injEq]
    constructor
    · by_contra hk
      exact fmt1_mul_inj (by norm_num) hk hcells.1
    · by_contra hk
      exact fmt1_mul_inj (by norm_num) hk hcells.2

/-- Claim C10 as amended: one-decimal rendering does cause identifier
collisions for SOME permitted bin sizes that are not multiples of 0.1
(e.g. 0.04: the points 0 and 0.04 lie in different bins but share the
rendered identifier "0.0_0.0"), and whenever the bin size is a positive
multiple of 0.1, distinct bins are guaranteed distinct identifiers.  (The
guarantee is not exclusive to multiples of 0.1: bin sizes above 0.1, such
as 0.15, also always separate distinct bins.) -/
theorem claim_C10_amended_collisions :
    (¬ isTenthMultiple (1/25) ∧
      binIndexPair 0 0 (1/25) ≠ binIndexPair (1/25) 0 (1/25) ∧
      get_bin_cell 0 0 (1/25) = get_bin_cell (1/25) 0 (1/25)) ∧
    (∀ (m : ℤ), 1 ≤ m → ∀ (lat1 lon1 lat2 lon2 : ℚ),
      binIndexPair lat1 lon1 ((m : ℚ) / 10) ≠ binIndexPair lat2 lon2 ((m : ℚ) / 10) →
      get_bin_cell lat1 lon1 ((m : ℚ) / 10) ≠ get_bin_cell lat2 lon2 ((m : ℚ) / 10)) := by
  constructor
  · refine ⟨?_, ?_, ?_⟩
    · rintro ⟨k, hk⟩
      have h2 : ((5 * k : ℤ) : ℚ) = 2 := by
        push_cast
        linarith
      have h3 : (5 * k : ℤ) = 2 := by exact_mod_cast h2
      omega
    · unfold binIndexPair pyInt
      intro h
      rw [Prod.mk.injEq] at h
      norm_num at h
    · have ha : pyInt ((0 : ℚ) * (1 / (1/25))) = 0 := by
        unfold pyInt
        norm_num
      have hb : pyInt ((1/25 : ℚ) * (1 / (1/25))) = 1 := by
        unfold pyInt
        norm_num
      have h0 : roundHalfEven (((0 : ℤ) : ℚ) * (1/25) * 10) = 0 := by
        unfold roundHalfEven
        rw [Int.fract]
        norm_num [round_eq]
      have h1 : roundHalfEven (((1 : ℤ) : ℚ) * (1/25) * 10) = 0 := by
        unfold roundHalfEven
        rw [Int.fract]
        norm_num [round_eq]
      have e1 : get_bin_cell 0 0 (1/25) = (((0 : ℤ) : ℚ)/10, ((0 : ℤ) : ℚ)/10) :=
        get_bin_cell_eval ha ha h0 h0
      have e2 : get_bin_cell (1/25) 0 (1/25) = (((0 : ℤ) : ℚ)/10, ((0 : ℤ) : ℚ)/10) :=
        get_bin_cell_eval hb ha h1 h0
      rw [e1, e2]
  · intro m hm lat1 lon1 lat2 lon2 hne hcells
    apply hne
    have hm0 : ((m : ℚ) / 10) ≠ 0 := by
      have : (0 : ℚ) < (m : ℚ) := by exact_mod_cast by omega
      positivity
    unfold get_bin_cell at hcells
    rw [Prod.mk.injEq, fmt1_int_mul_tenth, fmt1_int_mul_tenth,
      fmt1_int_mul_tenth, fmt1_int_mul_tenth] at hcells
    unfold binIndexPair
    rw [Prod.mk.injEq]
    constructor
    · have := mul_right_cancel₀ hm0 hcells.1
      exact_mod_cast this
    · have := mul_right_cancel₀ hm0 hcells.2
      exact_mod_cast this

/-- Witness for the amended claim C10: at bin size 0.1 the points 0 and
0.1 lie in different bins and receive different identifiers. -/
theorem claim_C10_witness :
    binIndexPair 0 0 (((1 : ℤ) : ℚ) / 10) ≠
      binIndexPair (1/10) 0 (((1 : ℤ) : ℚ) / 10) ∧
    get_bin_cell 0 0 (((1 : ℤ) : ℚ) / 10) ≠
      get_bin_cell (1/10) 0 (((1 : ℤ) : ℚ) / 10) := by
  have hne : binIndexPair 0 0 (((1 : ℤ) : ℚ) / 10) ≠
      binIndexPair (1/10) 0 (((1 : ℤ) : ℚ) / 10) := by
    unfold binIndexPair pyInt
    intro h
    rw [Prod.mk.injEq] at h
    norm_num at h
  exact ⟨hne, claim_C10_amended_collisions.2 1 (le_refl 1) 0 0 (1/10) 0 hne⟩
